import Mathlib

/-! dymoscale: measurement decoding and session lifecycle

A shallow embedding of `dymoscale.go`.

* Bytes are natural numbers below 256; the signed fields of a `Measurement`
  are integers, the unsigned ones naturals.
* An `io.Reader` is a state machine: `Read` on a state and the length of the
  slice it is handed answers with the bytes it copies into the slice, an
  optional error and the next state.
* The loop of `io.ReadAtLeast` may run forever on a reader that keeps
  answering `0, nil`; it is run with a bound on the number of iterations and
  the call has no result while the loop is still running at the bound.
* The USB library is a record of collaborator functions; every operation on a
  session records the collaborator calls it makes in a trace.
-/

namespace Dymoscale

/-! ## Errors -/

/-- Go `error` values: the three sentinels of package `io` that `ReadAtLeast`
produces or inspects, errors handed out by a collaborator (identified by a
number), and errors built by `fmt.Errorf` inside this package. -/
inductive GoError where
  | EOF
  | ErrUnexpectedEOF
  | ErrShortBuffer
  | lib (code : Nat)
  | errorf (msg : String)
  deriving DecidableEq, Repr

/-! ## Measurement -/

/-- The `Measurement` struct: four `int8` fields followed by two `uint8`
fields. -/
structure Measurement where
  AlwaysThree : Int
  Stability : Int
  Mode : Int
  ScaleFactor : Int
  WeightMinor : Nat
  WeightMajor : Nat
  deriving DecidableEq, Repr

/-- The zero value of `Measurement` (`var reading Measurement`). -/
def Measurement.zero : Measurement :=
  { AlwaysThree := 0, Stability := 0, Mode := 0, ScaleFactor := 0,
    WeightMinor := 0, WeightMajor := 0 }

/-- Encoded size of a `Measurement` as `binary.dataSize` computes it: the sum
of the sizes of its six one-byte fields. -/
def Measurement.dataSize : Nat := 1 + 1 + 1 + 1 + 1 + 1

/-- Go conversion `int8(x)` of an unsigned byte: two's complement. -/
def int8 (x : Nat) : Int :=
  if x % 256 < 128 then ((x % 256 : Nat) : Int) else ((x % 256 : Nat) : Int) - 256

/-- The `decoder` of `encoding/binary`: a buffer and a read offset. -/
structure decoder where
  buf : List Nat
  offset : Nat

/-- Method `decoder.uint8`: the byte at the offset, advancing the offset. -/
def decoder.uint8 (d : decoder) : Nat × decoder :=
  (d.buf.getD d.offset 0 % 256, { d with offset := d.offset + 1 })

/-- Method `decoder.int8`: `int8(d.uint8())`. -/
def decoder.int8 (d : decoder) : Int × decoder :=
  let x := d.uint8
  (Dymoscale.int8 x.1, x.2)

/-- Method `decoder.value` at type `Measurement`: the fields are decoded
one after the other in declaration order. -/
def decoder.value (d : decoder) : Measurement :=
  let f0 := d.int8
  let f1 := f0.2.int8
  let f2 := f1.2.int8
  let f3 := f2.2.int8
  let f4 := f3.2.uint8
  let f5 := f4.2.uint8
  { AlwaysThree := f0.1, Stability := f1.1, Mode := f2.1, ScaleFactor := f3.1,
    WeightMinor := f4.1, WeightMajor := f5.1 }

/-- Go `binary.LittleEndian.Uint16`: `uint16(b[0]) | uint16(b[1])<<8`. -/
def LittleEndianUint16 (b0 b1 : Nat) : Nat :=
  ((b0 % 256) ||| ((b1 % 256) <<< 8)) % 65536

/-! ## Readers -/

/-- What one `Read(p)` call answers: the bytes copied into `p`, the error and
the state of the reader afterwards. -/
structure ReadResult (σ : Type) where
  data : List Nat
  err : Option GoError
  next : σ

/-- An `io.Reader` over states `σ`; the second argument of `Read` is
`len(p)`. -/
structure Reader (σ : Type) where
  Read : σ → Nat → ReadResult σ

/-- One recorded `Read` call: `len(p)`, the count returned and the error
returned. -/
structure ReadCall where
  requested : Nat
  delivered : Nat
  err : Option GoError
  deriving DecidableEq, Repr

/-- The variables of the loop of `io.ReadAtLeast`, with the reader state and
the record of the calls made so far. -/
structure ReadState (σ : Type) where
  src : σ
  buf : List Nat
  n : Nat
  err : Option GoError
  calls : List ReadCall

/-- One iteration `nn, err = r.Read(buf[n:]); n += nn`. A reader cannot write
past the slice it is handed, so at most `len(buf[n:])` bytes arrive. -/
def readStep {σ : Type} (r : Reader σ) (st : ReadState σ) : ReadState σ :=
  let p := st.buf.length - st.n
  let out := r.Read st.src p
  let w := out.data.take p
  { src := out.next
    buf := st.buf.take st.n ++ w ++ st.buf.drop (st.n + w.length)
    n := st.n + w.length
    err := out.err
    calls := st.calls ++ [{ requested := p, delivered := w.length, err := out.err }] }

/-- The loop `for n < min && err == nil`, run for at most `fuel`
iterations. -/
def readLoop {σ : Type} (r : Reader σ) (min : Nat) : Nat → ReadState σ → ReadState σ
  | 0, st => st
  | fuel + 1, st =>
    if st.n < min ∧ st.err = none then readLoop r min fuel (readStep r st) else st

/-- Go `io.ReadAtLeast`. The result is `none` when the loop is still running
after `fuel` iterations. -/
def ReadAtLeast {σ : Type} (r : Reader σ) (s : σ) (buf : List Nat) (min fuel : Nat) :
    Option (ReadState σ) :=
  if buf.length < min then
    some { src := s, buf := buf, n := 0, err := some GoError.ErrShortBuffer, calls := [] }
  else
    let st := readLoop r min fuel { src := s, buf := buf, n := 0, err := none, calls := [] }
    if st.n < min ∧ st.err = none then none
    else if st.n ≥ min then some { st with err := none }
    else if st.n > 0 ∧ st.err = some GoError.EOF then
      some { st with err := some GoError.ErrUnexpectedEOF }
    else some st

/-- Go `io.ReadFull`. -/
def ReadFull {σ : Type} (r : Reader σ) (s : σ) (buf : List Nat) (fuel : Nat) :
    Option (ReadState σ) :=
  ReadAtLeast r s buf buf.length fuel

/-- The Read calls issued on the source during the first `fuel` iterations of
one `ReadMeasurement` call. -/
def readTrace {σ : Type} (r : Reader σ) (s : σ) (fuel : Nat) : List ReadCall :=
  (readLoop r Measurement.dataSize fuel
    { src := s, buf := List.replicate Measurement.dataSize 0, n := 0, err := none,
      calls := [] }).calls

/-- What a `ReadMeasurement` call leaves behind: the two return values, the
reader afterwards and the Read calls it made. -/
structure Reading (σ : Type) where
  reading : Measurement
  err : Option GoError
  src : σ
  calls : List ReadCall

/-- Go `binary.Read(r, order, data)` for `data` pointing at a `Measurement`:
a buffer of the encoded size is filled by `io.ReadFull`; on an error the
error is returned and `data` is left alone, otherwise the buffer is
decoded into `data`. -/
def binaryRead {σ : Type} (r : Reader σ) (s : σ) (data : Measurement) (fuel : Nat) :
    Option (Reading σ) :=
  match ReadFull r s (List.replicate Measurement.dataSize 0) fuel with
  | none => none
  | some st =>
    match st.err with
    | some e => some { reading := data, err := some e, src := st.src, calls := st.calls }
    | none =>
      some { reading := decoder.value { buf := st.buf, offset := 0 }, err := none,
             src := st.src, calls := st.calls }

/-- Function `ReadMeasurement`: `binary.Read` into a zero `Measurement`. -/
def ReadMeasurement {σ : Type} (r : Reader σ) (s : σ) (fuel : Nat) : Option (Reading σ) :=
  binaryRead r s Measurement.zero fuel

/-- Number of bytes a call received in total. -/
def delivered (calls : List ReadCall) : Nat :=
  (calls.map ReadCall.delivered).sum

/-- A `bytes.Reader`: the state is the unread content; `Read` answers
`0, io.EOF` when nothing is left and otherwise copies as much as fits. -/
def bytesReader : Reader (List Nat) where
  Read := fun s k =>
    match s with
    | [] => { data := [], err := some GoError.EOF, next := [] }
    | _ :: _ => { data := s.take k, err := none, next := s.drop k }

/-- A reader over unread content that hands out at most `c` bytes per call
(`iotest.OneByteReader` for `c = 1`). -/
def chunkReader (c : Nat) : Reader (List Nat) where
  Read := fun s k =>
    match s with
    | [] => { data := [], err := some GoError.EOF, next := [] }
    | _ :: _ => { data := s.take (min k c), err := none, next := s.drop (min k c) }

/-- A reader over unread content that reports `io.EOF` together with the last
bytes it hands out (`iotest.DataErrReader`). -/
def dataErrReader : Reader (List Nat) where
  Read := fun s k =>
    { data := s.take k, err := if s.length ≤ k then some GoError.EOF else none,
      next := s.drop k }

/-! ## The USB collaborators -/

/-- The part of `usb.EndpointInfo` the program reads. -/
structure EndpointInfo where
  Address : Nat
  MaxPacketSize : Nat
  deriving DecidableEq, Repr

/-- The part of `usb.InterfaceSetup` the program reads. -/
structure InterfaceSetup where
  Number : Nat
  Endpoints : List EndpointInfo
  deriving DecidableEq, Repr

/-- The part of `usb.InterfaceInfo` the program reads. -/
structure InterfaceInfo where
  Number : Nat
  Setups : List InterfaceSetup
  deriving DecidableEq, Repr

/-- The part of `usb.ConfigInfo` the program reads. -/
structure ConfigInfo where
  Config : Nat
  Interfaces : List InterfaceInfo
  deriving DecidableEq, Repr

/-- The part of `usb.Descriptor` the program reads. -/
structure Descriptor where
  Vendor : Nat
  Configs : List ConfigInfo
  deriving DecidableEq, Repr

/-- A `*usb.Device`: a handle together with the descriptor it embeds. -/
structure Device where
  handle : Nat
  desc : Descriptor
  deriving DecidableEq, Repr

/-- A `*usb.Context`, identified by a number. -/
structure Context where
  id : Nat
  deriving DecidableEq, Repr

/-- The calls the program makes on the USB library. `E` is the type of
endpoint handles. -/
structure Usb (E : Type) where
  NewContext : Context
  ListDevices : Context → (Descriptor → Bool) → List Device × Option GoError
  OpenEndpoint : Device → Nat → Nat → Nat → Nat → E × Option GoError
  DeviceClose : Device → Option GoError
  ContextClose : Context → Option GoError

/-- One recorded call on the USB library. -/
inductive Call where
  | NewContext
  | ListDevices (ctx : Context)
  | OpenEndpoint (dev : Device) (conf iface setup epoint : Nat)
  | DeviceClose (dev : Device)
  | ContextClose (ctx : Context)
  deriving DecidableEq, Repr

/-- Constant `VendorID`. -/
def VendorID : Nat := 0x0922

/-- The `Scale` struct. -/
structure Scale (E : Type) where
  context : Context
  device : Device
  endpoint : E

/-- A run of `NewScale`: the collaborator calls made, in order, and the two
return values; `result` is `none` when an index expression is out of range
and the function does not return. -/
structure Run (E : Type) where
  trace : List Call
  result : Option (Option (Scale E) × Option GoError)

/-- Function `closeWithError`: the calls it makes and its two return
values. The results of the close calls are dropped. -/
def closeWithError {E : Type} (context : Context) (devices : List Device)
    (err : Option GoError) : List Call × (Option (Scale E) × Option GoError) :=
  (devices.map Call.DeviceClose ++ [Call.ContextClose context], (none, err))

/-- The function literal handed to `ListDevices` in `NewScale`. -/
def vendorFilter (desc : Descriptor) : Bool :=
  if desc.Vendor = VendorID then true else false

/-- The four arguments of the `OpenEndpoint` call in `NewScale`, evaluated
left to right; `none` when one of the index expressions is out of range. -/
def endpointArgs (dev : Device) : Option (Nat × Nat × Nat × Nat) :=
  match dev.desc.Configs[0]? with
  | none => none
  | some c =>
    match c.Interfaces[0]? with
    | none => none
    | some i =>
      match i.Setups[0]? with
      | none => none
      | some su =>
        match su.Endpoints[0]? with
        | none => none
        | some e => some (c.Config, i.Number, su.Number, e.Address)

/-- Function `NewScale`. -/
def NewScale {E : Type} (usb : Usb E) : Run E :=
  let ctx := usb.NewContext
  let listed := usb.ListDevices ctx vendorFilter
  let devs := listed.1
  let t := [Call.NewContext, Call.ListDevices ctx]
  match listed.2 with
  | some err =>
    let r := closeWithError ctx devs (some err)
    { trace := t ++ r.1, result := some r.2 }
  | none =>
    if devs.length ≠ 1 then
      let err := GoError.errorf ("expected 1 device, found " ++ toString devs.length)
      let r := closeWithError ctx devs (some err)
      { trace := t ++ r.1, result := some r.2 }
    else
      match devs[0]? with
      | none => { trace := t, result := none }
      | some dev =>
        match endpointArgs dev with
        | none => { trace := t, result := none }
        | some a =>
          let opened := usb.OpenEndpoint dev a.1 a.2.1 a.2.2.1 a.2.2.2
          let t2 := t ++ [Call.OpenEndpoint dev a.1 a.2.1 a.2.2.1 a.2.2.2]
          match opened.2 with
          | some err =>
            let r := closeWithError ctx devs (some err)
            { trace := t2 ++ r.1, result := some r.2 }
          | none =>
            { trace := t2
              result := some (some { context := ctx, device := dev, endpoint := opened.1 },
                              none) }

/-- Method `Scale.Close`: the calls it makes and the error it returns. -/
def Scale.Close {E : Type} (usb : Usb E) (s : Scale E) : List Call × Option GoError :=
  let errDev := usb.DeviceClose s.device
  let errCtx := usb.ContextClose s.context
  ([Call.DeviceClose s.device, Call.ContextClose s.context],
   match errDev with
   | some e => some e
   | none => errCtx)

/-- A `usb.Endpoint`: what `Info()` reports, the `Read` method and the
state of the endpoint. -/
structure Endpoint (σ : Type) where
  Info : EndpointInfo
  reader : Reader σ
  state : σ

/-- What a `ReadRaw` call leaves behind: the two return values, the endpoint
state afterwards and the Read calls it made. -/
structure RawReading (σ : Type) where
  buf : List Nat
  err : Option GoError
  src : σ
  calls : List ReadCall

/-- Method `Scale.ReadRaw`: a zeroed buffer of `MaxPacketSize` bytes and one
`Read` into it. -/
def Scale.ReadRaw {σ : Type} (s : Scale (Endpoint σ)) : RawReading σ :=
  let buf := List.replicate s.endpoint.Info.MaxPacketSize 0
  let out := s.endpoint.reader.Read s.endpoint.state buf.length
  let w := out.data.take buf.length
  { buf := w ++ buf.drop w.length
    err := out.err
    src := out.next
    calls := [{ requested := buf.length, delivered := w.length, err := out.err }] }

/-- Method `Scale.ReadMeasurement`: `ReadMeasurement` on the endpoint. -/
def Scale.ReadMeasurement {σ : Type} (s : Scale (Endpoint σ)) (fuel : Nat) :
    Option (Reading σ) :=
  Dymoscale.ReadMeasurement s.endpoint.reader s.endpoint.state fuel

/-! ## A USB library for concrete runs -/

/-- A USB library over a fixed list of attached devices: `ListDevices` hands
out the devices the filter accepts, `OpenEndpoint` answers the endpoint
address together with `openErr`, and both close calls answer `closeErr`. -/
def busUsb (bus : List Device) (openErr closeErr : Option GoError) : Usb Nat where
  NewContext := { id := 0 }
  ListDevices := fun _ each => (bus.filter (fun d => each d.desc), none)
  OpenEndpoint := fun _ _ _ _ epoint => (epoint, openErr)
  DeviceClose := fun _ => closeErr
  ContextClose := fun _ => closeErr

/-- A device of vendor `0x0922` with one configuration, one interface, one
setup and one endpoint. -/
def scaleDevice (handle : Nat) : Device :=
  { handle := handle
    desc :=
      { Vendor := 0x0922
        Configs :=
          [{ Config := 1
             Interfaces :=
               [{ Number := 0
                  Setups :=
                    [{ Number := 0
                       Endpoints := [{ Address := 130, MaxPacketSize := 8 }] }] }] }] } }

/-- A device of vendor `0x0922` whose descriptor lists no configuration. -/
def bareDevice (handle : Nat) : Device :=
  { handle := handle, desc := { Vendor := 0x0922, Configs := [] } }

/-- Call `c` is neither a device close nor a context close. -/
def notClose (c : Call) : Prop :=
  (∀ d, c ≠ Call.DeviceClose d) ∧ (∀ x, c ≠ Call.ContextClose x)

/-- An endpoint fed by reader `r` in state `st`, reporting `mps` as its
maximum packet size. -/
def endpointOf {σ : Type} (r : Reader σ) (st : σ) (mps : Nat) : Endpoint σ :=
  { Info := { Address := 130, MaxPacketSize := mps }, reader := r, state := st }

/-- A session on device `scaleDevice 1` whose endpoint is fed by reader `r`
in state `st`. -/
def sessionOf {σ : Type} (r : Reader σ) (st : σ) (mps : Nat) : Scale (Endpoint σ) :=
  { context := { id := 0 }, device := scaleDevice 1, endpoint := endpointOf r st mps }

/-! ## Byte sources -/

/-- The start of the loop of `io.ReadFull` on a zeroed buffer of `L` bytes. -/
def startState {σ : Type} (s : σ) (L : Nat) : ReadState σ :=
  { src := s, buf := List.replicate L 0, n := 0, err := none, calls := [] }

/-- Reader `r` hands out the front of the content that `content` assigns to
its state: a Read never answers more bytes than the slice holds, what it
answers is the front of the content, and the content afterwards is the
rest. -/
structure Delivers {σ : Type} (r : Reader σ) (content : σ → List Nat) : Prop where
  bounded : ∀ s k, (r.Read s k).data.length ≤ k
  front : ∀ s k, (r.Read s k).data = (content s).take (r.Read s k).data.length
  rest : ∀ s k, content (r.Read s k).next = (content s).drop (r.Read s k).data.length

/-- Reader `r` is a source holding the bytes `content`: it hands them out
front first, at least one byte per Read of a non-empty slice while content is
left, reports an error only with or after its last byte, and reports one when
asked after the last byte. -/
structure ByteSource {σ : Type} (r : Reader σ) (content : σ → List Nat) : Prop where
  delivers : Delivers r content
  progress : ∀ s k, 0 < k → content s ≠ [] → (r.Read s k).data ≠ []
  errAtEnd : ∀ s k, (r.Read s k).err ≠ none → content (r.Read s k).next = []
  endErr : ∀ s k, 0 < k → content s = [] → (r.Read s k).err ≠ none

/-- What the loop of `io.ReadFull` keeps true on any reader: the buffer keeps
its length, the count stays within it, the count is the sum of the counts of
the recorded calls, no call asked for more than the buffer holds, an error is
pending exactly when a recorded call reported one, and it is that call's
error. -/
structure LoopInv {σ : Type} (L : Nat) (st : ReadState σ) : Prop where
  len : st.buf.length = L
  le : st.n ≤ L
  sum : delivered st.calls = st.n
  req : ∀ c ∈ st.calls, c.requested ≤ L
  errs : (∃ c ∈ st.calls, c.err ≠ none) ↔ st.err ≠ none
  last : ∀ c ∈ st.calls, c.err ≠ none → c.err = st.err

/-! ## Lemmas on the read loop -/

theorem readLoop_zero {σ : Type} (r : Reader σ) (min : Nat) (st : ReadState σ) :
    readLoop r min 0 st = st := rfl

theorem readLoop_succ {σ : Type} (r : Reader σ) (min fuel : Nat) (st : ReadState σ) :
    readLoop r min (fuel + 1) st =
      if st.n < min ∧ st.err = none then readLoop r min fuel (readStep r st) else st := rfl

theorem readLoop_done {σ : Type} (r : Reader σ) (min fuel : Nat) (st : ReadState σ)
    (h : ¬ (st.n < min ∧ st.err = none)) : readLoop r min fuel st = st := by
  cases fuel with
  | zero => rfl
  | succ k => rw [readLoop_succ, if_neg h]

theorem int8_of_lt (b : Nat) (h : b < 256) :
    int8 b = if b < 128 then (b : Int) else (b : Int) - 256 := by
  unfold int8
  rw [Nat.mod_eq_of_lt h]

theorem LittleEndianUint16_eq (b0 b1 : Nat) (h0 : b0 < 256) (h1 : b1 < 256) :
    LittleEndianUint16 b0 b1 = b0 + b1 * 256 := by
  unfold LittleEndianUint16
  rw [Nat.mod_eq_of_lt h0, Nat.mod_eq_of_lt h1]
  have h : 2 ^ 8 * b1 + b0 = 2 ^ 8 * b1 ||| b0 := Nat.mul_add_lt_is_or (by omega) b1
  rw [Nat.lor_comm, Nat.shiftLeft_eq, Nat.mul_comm b1 (2 ^ 8), ← h]
  omega

theorem delivered_append (xs ys : List ReadCall) :
    delivered (xs ++ ys) = delivered xs + delivered ys := by
  simp [delivered]

theorem LoopInv_start {σ : Type} (s : σ) (L : Nat) : LoopInv L (startState s L) where
  len := by simp [startState]
  le := by simp [startState]
  sum := by simp [startState, delivered]
  req := by simp [startState]
  errs := by simp [startState]
  last := by simp [startState]

theorem LoopInv_step {σ : Type} (r : Reader σ) (L : Nat) (st : ReadState σ)
    (h : LoopInv L st) (he : st.err = none) : LoopInv L (readStep r st) where
  len := by
    have h1 := h.len
    have h2 := h.le
    simp only [readStep, List.length_append, List.length_take, List.length_drop]
    omega
  le := by
    have h1 := h.len
    have h2 := h.le
    simp only [readStep, List.length_take]
    omega
  sum := by
    simp only [readStep, delivered_append, h.sum]
    simp [delivered]
  req := by
    intro c hc
    simp only [readStep, List.mem_append, List.mem_singleton] at hc
    rcases hc with hc | hc
    · exact h.req c hc
    · subst hc
      have h1 := h.len
      simp only
      omega
  errs := by
    have hno : ∀ c ∈ st.calls, c.err = none := by
      intro c hc
      by_contra hne
      exact (h.errs.mp ⟨c, hc, hne⟩) he
    simp only [readStep]
    constructor
    · rintro ⟨c, hc, hne⟩
      simp only [List.mem_append, List.mem_singleton] at hc
      rcases hc with hc | hc
      · exact absurd (hno c hc) hne
      · subst hc
        exact hne
    · intro hne
      exact ⟨_, List.mem_append_right _ (List.mem_singleton_self _), hne⟩
  last := by
    have hno : ∀ c ∈ st.calls, c.err = none := by
      intro c hc
      by_contra hne
      exact (h.errs.mp ⟨c, hc, hne⟩) he
    intro c hc hne
    simp only [readStep, List.mem_append, List.mem_singleton] at hc
    rcases hc with hc | hc
    · exact absurd (hno c hc) hne
    · subst hc
      rfl

theorem LoopInv_loop {σ : Type} (r : Reader σ) (L : Nat) :
    ∀ (fuel : Nat) (st : ReadState σ), LoopInv L st → LoopInv L (readLoop r L fuel st) := by
  intro fuel
  induction fuel with
  | zero => intro st h; exact h
  | succ k ih =>
    intro st h
    rw [readLoop_succ]
    split
    · next hc => exact ih _ (LoopInv_step r L st h hc.2)
    · exact h

/-! ## `ReadMeasurement` in terms of the state the loop ends in -/

theorem Measurement.dataSize_eq : Measurement.dataSize = 6 := rfl

theorem ReadAtLeast_running {σ : Type} (r : Reader σ) (s : σ) (buf : List Nat)
    (min fuel : Nat) (hb : ¬ buf.length < min)
    (hn : (readLoop r min fuel
      { src := s, buf := buf, n := 0, err := none, calls := [] }).n < min)
    (he : (readLoop r min fuel
      { src := s, buf := buf, n := 0, err := none, calls := [] }).err = none) :
    ReadAtLeast r s buf min fuel = none := by
  unfold ReadAtLeast
  rw [if_neg hb]
  exact if_pos ⟨hn, he⟩

theorem ReadAtLeast_full {σ : Type} (r : Reader σ) (s : σ) (buf : List Nat)
    (min fuel : Nat) (hb : ¬ buf.length < min)
    (hn : min ≤ (readLoop r min fuel
      { src := s, buf := buf, n := 0, err := none, calls := [] }).n) :
    ReadAtLeast r s buf min fuel =
      some { readLoop r min fuel { src := s, buf := buf, n := 0, err := none, calls := [] }
             with err := none } := by
  unfold ReadAtLeast
  rw [if_neg hb]
  show (if _ then _ else _) = _
  rw [if_neg (fun h => absurd hn (Nat.not_le.mpr h.1))]
  exact if_pos hn

theorem ReadAtLeast_short {σ : Type} (r : Reader σ) (s : σ) (buf : List Nat)
    (min fuel : Nat) (e : GoError) (hb : ¬ buf.length < min)
    (hn : (readLoop r min fuel
      { src := s, buf := buf, n := 0, err := none, calls := [] }).n < min)
    (he : (readLoop r min fuel
      { src := s, buf := buf, n := 0, err := none, calls := [] }).err = some e) :
    ReadAtLeast r s buf min fuel =
      some { readLoop r min fuel { src := s, buf := buf, n := 0, err := none, calls := [] }
             with err := some (if 0 < (readLoop r min fuel
                    { src := s, buf := buf, n := 0, err := none, calls := [] }).n ∧
                    e = GoError.EOF
                  then GoError.ErrUnexpectedEOF else e) } := by
  unfold ReadAtLeast
  rw [if_neg hb]
  show (if _ then _ else _) = _
  rw [if_neg (fun h => by rw [he] at h; exact absurd h.2 (by simp))]
  rw [if_neg (Nat.not_le.mpr hn)]
  by_cases h2 : 0 < (readLoop r min fuel
      { src := s, buf := buf, n := 0, err := none, calls := [] }).n ∧ e = GoError.EOF
  · rw [if_pos ⟨h2.1, by rw [he, h2.2]⟩, if_pos h2]
  · rw [if_neg (fun h => h2 ⟨h.1, by rw [he] at h; exact Option.some.inj h.2⟩), if_neg h2]
    congr 1
    rw [← he]

theorem ReadMeasurement_running {σ : Type} (r : Reader σ) (s : σ) (fuel : Nat)
    (hn : (readLoop r 6 fuel (startState s 6)).n < 6)
    (he : (readLoop r 6 fuel (startState s 6)).err = none) :
    ReadMeasurement r s fuel = none := by
  have h := ReadAtLeast_running r s (List.replicate 6 0) 6 fuel (by simp) hn he
  unfold ReadMeasurement binaryRead ReadFull
  simp only [Measurement.dataSize_eq, List.length_replicate]
  rw [h]

theorem ReadMeasurement_full {σ : Type} (r : Reader σ) (s : σ) (fuel : Nat)
    (hn : 6 ≤ (readLoop r 6 fuel (startState s 6)).n) :
    ReadMeasurement r s fuel =
      some { reading := decoder.value
               { buf := (readLoop r 6 fuel (startState s 6)).buf, offset := 0 }
             err := none
             src := (readLoop r 6 fuel (startState s 6)).src
             calls := (readLoop r 6 fuel (startState s 6)).calls } := by
  have h := ReadAtLeast_full r s (List.replicate 6 0) 6 fuel (by simp) hn
  unfold ReadMeasurement binaryRead ReadFull
  simp only [Measurement.dataSize_eq, List.length_replicate]
  rw [h]
  rfl

theorem ReadMeasurement_short {σ : Type} (r : Reader σ) (s : σ) (fuel : Nat) (e : GoError)
    (hn : (readLoop r 6 fuel (startState s 6)).n < 6)
    (he : (readLoop r 6 fuel (startState s 6)).err = some e) :
    ReadMeasurement r s fuel =
      some { reading := Measurement.zero
             err := some (if 0 < (readLoop r 6 fuel (startState s 6)).n ∧ e = GoError.EOF
                          then GoError.ErrUnexpectedEOF else e)
             src := (readLoop r 6 fuel (startState s 6)).src
             calls := (readLoop r 6 fuel (startState s 6)).calls } := by
  have h := ReadAtLeast_short r s (List.replicate 6 0) 6 fuel e (by simp) hn he
  unfold ReadMeasurement binaryRead ReadFull
  simp only [Measurement.dataSize_eq, List.length_replicate]
  rw [h]
  rfl

theorem readTrace_eq {σ : Type} (r : Reader σ) (s : σ) (fuel : Nat) :
    readTrace r s fuel = (readLoop r 6 fuel (startState s 6)).calls := rfl

/-- What a returned `ReadMeasurement` says about the state the loop ended
in. -/
theorem ReadMeasurement_some {σ : Type} (r : Reader σ) (s : σ) (fuel : Nat)
    (res : Reading σ) (h : ReadMeasurement r s fuel = some res) :
    res.calls = (readLoop r 6 fuel (startState s 6)).calls ∧
      res.src = (readLoop r 6 fuel (startState s 6)).src ∧
      ¬ ((readLoop r 6 fuel (startState s 6)).n < 6 ∧
          (readLoop r 6 fuel (startState s 6)).err = none) ∧
      (res.err = none ↔ 6 ≤ (readLoop r 6 fuel (startState s 6)).n) ∧
      (res.err = none → res.reading = decoder.value
          { buf := (readLoop r 6 fuel (startState s 6)).buf, offset := 0 }) ∧
      (res.err ≠ none → res.reading = Measurement.zero) := by
  by_cases hn : (readLoop r 6 fuel (startState s 6)).n < 6
  · cases he : (readLoop r 6 fuel (startState s 6)).err with
    | none =>
      rw [ReadMeasurement_running r s fuel hn he] at h
      exact absurd h (by simp)
    | some e =>
      rw [ReadMeasurement_short r s fuel e hn he] at h
      injection h with h
      subst h
      refine ⟨rfl, rfl, fun hc => by simp at hc, ?_, fun hc => by simp at hc, fun _ => rfl⟩
      constructor
      · intro hc; simp at hc
      · intro hc; omega
  · have hge : 6 ≤ (readLoop r 6 fuel (startState s 6)).n := by omega
    rw [ReadMeasurement_full r s fuel hge] at h
    injection h with h
    subst h
    exact ⟨rfl, rfl, fun hc => hn hc.1, ⟨fun _ => hge, fun _ => rfl⟩, fun _ => rfl,
      fun hc => absurd rfl hc⟩

/-! ## The loop on a source that hands out its content -/

theorem content_step {σ : Type} (r : Reader σ) (content : σ → List Nat)
    (hd : Delivers r content) (L : Nat) (C : List Nat) (st : ReadState σ)
    (hi : LoopInv L st) (hb : st.buf.take st.n = C.take st.n)
    (hc : content st.src = C.drop st.n) :
    (readStep r st).buf.take (readStep r st).n = C.take (readStep r st).n ∧
      content (readStep r st).src = C.drop (readStep r st).n := by
  have hlen := hi.len
  have hle := hi.le
  have hbd := hd.bounded st.src (st.buf.length - st.n)
  have hfr := hd.front st.src (st.buf.length - st.n)
  have hrs := hd.rest st.src (st.buf.length - st.n)
  have hw : (r.Read st.src (st.buf.length - st.n)).data.take (st.buf.length - st.n) =
      (r.Read st.src (st.buf.length - st.n)).data := List.take_of_length_le hbd
  simp only [readStep, hw]
  constructor
  · have h1 : (st.buf.take st.n ++ (r.Read st.src (st.buf.length - st.n)).data).length =
        st.n + (r.Read st.src (st.buf.length - st.n)).data.length := by
      rw [List.length_append, List.length_take]
      omega
    rw [← h1, List.take_left, h1, List.take_add, hb, ← hc, ← hfr]
  · rw [hrs, hc, List.drop_drop]

theorem content_loop {σ : Type} (r : Reader σ) (content : σ → List Nat)
    (hd : Delivers r content) (L : Nat) (C : List Nat) :
    ∀ (fuel : Nat) (st : ReadState σ), LoopInv L st →
      st.buf.take st.n = C.take st.n → content st.src = C.drop st.n →
      (readLoop r L fuel st).buf.take (readLoop r L fuel st).n =
          C.take (readLoop r L fuel st).n ∧
        content (readLoop r L fuel st).src = C.drop (readLoop r L fuel st).n := by
  intro fuel
  induction fuel with
  | zero => intro st _ hb hc; exact ⟨hb, hc⟩
  | succ k ih =>
    intro st hi hb hc
    rw [readLoop_succ]
    split
    · next hcond =>
      have hs := content_step r content hd L C st hi hb hc
      exact ih _ (LoopInv_step r L st hi hcond.2) hs.1 hs.2
    · exact ⟨hb, hc⟩

theorem errAtEnd_loop {σ : Type} (r : Reader σ) (content : σ → List Nat)
    (hs : ByteSource r content) (L : Nat) :
    ∀ (fuel : Nat) (st : ReadState σ), (st.err ≠ none → content st.src = []) →
      ((readLoop r L fuel st).err ≠ none → content (readLoop r L fuel st).src = []) := by
  intro fuel
  induction fuel with
  | zero => intro st h; exact h
  | succ k ih =>
    intro st h
    rw [readLoop_succ]
    split
    · exact ih _ (hs.errAtEnd st.src (st.buf.length - st.n))
    · exact h

theorem progress_loop {σ : Type} (r : Reader σ) (content : σ → List Nat)
    (hs : ByteSource r content) (L : Nat) (C : List Nat) :
    ∀ (fuel : Nat) (st : ReadState σ), LoopInv L st →
      st.buf.take st.n = C.take st.n → content st.src = C.drop st.n →
      ¬ ((readLoop r L fuel st).n < L ∧ (readLoop r L fuel st).err = none) ∨
        st.n + fuel ≤ (readLoop r L fuel st).n := by
  intro fuel
  induction fuel with
  | zero => intro st _ _ _; exact Or.inr (Nat.le_refl _)
  | succ k ih =>
    intro st hi hb hc
    rw [readLoop_succ]
    split
    · next hcond =>
      have hstep := content_step r content hs.delivers L C st hi hb hc
      have hinv := LoopInv_step r L st hi hcond.2
      have hlen := hi.len
      have hpos : 0 < st.buf.length - st.n := by omega
      by_cases hempty : content st.src = []
      · have herr := hs.endErr st.src (st.buf.length - st.n) hpos hempty
        have hdone : ¬ ((readStep r st).n < L ∧ (readStep r st).err = none) := by
          intro h
          exact herr h.2
        rw [readLoop_done r L k _ hdone]
        exact Or.inl hdone
      · have hdata := hs.progress st.src (st.buf.length - st.n) hpos hempty
        have hbd := hs.delivers.bounded st.src (st.buf.length - st.n)
        have hgrow : st.n + 1 ≤ (readStep r st).n := by
          have hl : 0 < (r.Read st.src (st.buf.length - st.n)).data.length :=
            List.length_pos.mpr hdata
          simp only [readStep, List.length_take]
          omega
        rcases ih _ hinv hstep.1 hstep.2 with h | h
        · exact Or.inl h
        · exact Or.inr (by omega)
    · next hcond => exact Or.inl hcond

theorem count_le_content {σ : Type} (L : Nat) (C : List Nat) (st : ReadState σ)
    (hi : LoopInv L st) (hb : st.buf.take st.n = C.take st.n) : st.n ≤ C.length := by
  have h := congrArg List.length hb
  have hlen := hi.len
  have hle := hi.le
  simp only [List.length_take] at h
  omega

/-- On a source holding at least six bytes the loop ends with six bytes in
the buffer, the first six of the content, and the rest left in the source. -/
theorem loop_enough {σ : Type} (r : Reader σ) (content : σ → List Nat)
    (hs : ByteSource r content) (s : σ) (fuel : Nat) (hlen : 6 ≤ (content s).length)
    (hfuel : 6 ≤ fuel) :
    (readLoop r 6 fuel (startState s 6)).n = 6 ∧
      (readLoop r 6 fuel (startState s 6)).buf = (content s).take 6 ∧
      content (readLoop r 6 fuel (startState s 6)).src = (content s).drop 6 := by
  have hi0 := LoopInv_start s 6
  have hi := LoopInv_loop r 6 fuel _ hi0
  have hc := content_loop r content hs.delivers 6 (content s) fuel _ hi0
    (by simp [startState]) (by simp [startState])
  have he := errAtEnd_loop r content hs 6 fuel (startState s 6) (by simp [startState])
  have hp := progress_loop r content hs 6 (content s) fuel _ hi0
    (by simp [startState]) (by simp [startState])
  have hle := hi.le
  have hn : (readLoop r 6 fuel (startState s 6)).n = 6 := by
    rcases hp with hp | hp
    · by_contra hne
      have hlt : (readLoop r 6 fuel (startState s 6)).n < 6 := by omega
      have herr : (readLoop r 6 fuel (startState s 6)).err ≠ none := fun h => hp ⟨hlt, h⟩
      have h1 := he herr
      rw [hc.2] at h1
      have h2 := congrArg List.length h1
      simp only [List.length_drop, List.length_nil] at h2
      omega
    · simp only [startState] at hp
      simp only [startState] at hle
      simp only [startState]
      omega
  refine ⟨hn, ?_, ?_⟩
  · have h1 := hc.1
    rw [hn] at h1
    rw [← h1, List.take_of_length_le (by rw [hi.len])]
  · rw [hc.2, hn]

/-- On a source holding fewer than six bytes the loop ends with an error
pending after it has received all of them. -/
theorem loop_short {σ : Type} (r : Reader σ) (content : σ → List Nat)
    (hs : ByteSource r content) (s : σ) (fuel : Nat) (hlen : (content s).length < 6)
    (hfuel : (content s).length < fuel) :
    (readLoop r 6 fuel (startState s 6)).n = (content s).length ∧
      (readLoop r 6 fuel (startState s 6)).err ≠ none := by
  have hi0 := LoopInv_start s 6
  have hi := LoopInv_loop r 6 fuel _ hi0
  have hc := content_loop r content hs.delivers 6 (content s) fuel _ hi0
    (by simp [startState]) (by simp [startState])
  have he := errAtEnd_loop r content hs 6 fuel (startState s 6) (by simp [startState])
  have hp := progress_loop r content hs 6 (content s) fuel _ hi0
    (by simp [startState]) (by simp [startState])
  have hcl := count_le_content 6 (content s) _ hi hc.1
  have herr : (readLoop r 6 fuel (startState s 6)).err ≠ none := by
    rcases hp with hp | hp
    · intro h
      exact hp ⟨by omega, h⟩
    · simp only [startState] at hp
      simp only [startState] at hcl
      omega
  refine ⟨?_, herr⟩
  have h1 := he herr
  rw [hc.2] at h1
  have h2 := congrArg List.length h1
  simp only [List.length_drop, List.length_nil] at h2
  omega

/-! ## The concrete readers are byte sources -/

theorem bytesReader_source : ByteSource bytesReader id where
  delivers :=
    { bounded := by
        intro s k
        cases s with
        | nil => simp [bytesReader]
        | cons a t => simp only [bytesReader, List.length_take]; omega
      front := by
        intro s k
        cases s with
        | nil => simp [bytesReader]
        | cons a t => simp only [bytesReader, id, List.length_take, List.take_eq_take]; omega
      rest := by
        intro s k
        cases s with
        | nil => simp [bytesReader]
        | cons a t =>
          simp only [bytesReader, id, List.length_take]
          rcases Nat.le_total k (a :: t).length with h | h
          · rw [Nat.min_eq_left h]
          · rw [Nat.min_eq_right h, List.drop_of_length_le h, List.drop_of_length_le (Nat.le_refl _)] }
  progress := by
    intro s k hk hs
    cases s with
    | nil => exact absurd rfl hs
    | cons a t =>
      cases k with
      | zero => exact absurd hk (Nat.lt_irrefl 0)
      | succ j => simp [bytesReader]
  errAtEnd := by
    intro s k
    cases s with
    | nil => intro _; rfl
    | cons a t => intro h; exact absurd rfl h
  endErr := by
    intro s k _ hs
    cases s with
    | nil => simp [bytesReader]
    | cons a t => exact absurd hs (by simp)

theorem chunkReader_source (c : Nat) (hc : 1 ≤ c) : ByteSource (chunkReader c) id where
  delivers :=
    { bounded := by
        intro s k
        cases s with
        | nil => simp [chunkReader]
        | cons a t =>
          simp only [chunkReader, List.length_take]
          omega
      front := by
        intro s k
        cases s with
        | nil => simp [chunkReader]
        | cons a t => simp only [chunkReader, id, List.length_take, List.take_eq_take]; omega
      rest := by
        intro s k
        cases s with
        | nil => simp [chunkReader]
        | cons a t =>
          simp only [chunkReader, id, List.length_take]
          rcases Nat.le_total (min k c) (a :: t).length with h | h
          · rw [Nat.min_eq_left h]
          · rw [Nat.min_eq_right h, List.drop_of_length_le h, List.drop_of_length_le (Nat.le_refl _)] }
  progress := by
    intro s k hk hs
    cases s with
    | nil => exact absurd rfl hs
    | cons a t =>
      have h : min k c ≠ 0 := by omega
      obtain ⟨j, hj⟩ := Nat.exists_eq_succ_of_ne_zero h
      simp only [chunkReader, hj]
      simp
  errAtEnd := by
    intro s k
    cases s with
    | nil => intro _; rfl
    | cons a t => intro h; exact absurd rfl h
  endErr := by
    intro s k _ hs
    cases s with
    | nil => simp [chunkReader]
    | cons a t => exact absurd hs (by simp)

theorem dataErrReader_source : ByteSource dataErrReader id where
  delivers :=
    { bounded := by
        intro s k
        simp only [dataErrReader, List.length_take]
        omega
      front := by
        intro s k
        simp only [dataErrReader, id, List.length_take, List.take_eq_take]
        omega
      rest := by
        intro s k
        simp only [dataErrReader, id, List.length_take]
        rcases Nat.le_total k s.length with h | h
        · rw [Nat.min_eq_left h]
        · rw [Nat.min_eq_right h, List.drop_of_length_le h, List.drop_of_length_le (Nat.le_refl _)] }
  progress := by
    intro s k hk hs
    cases s with
    | nil => exact absurd rfl hs
    | cons a t =>
      cases k with
      | zero => exact absurd hk (Nat.lt_irrefl 0)
      | succ j => simp [dataErrReader]
  errAtEnd := by
    intro s k h
    simp only [dataErrReader, id] at h ⊢
    by_cases hle : s.length ≤ k
    · exact List.drop_of_length_le hle
    · rw [if_neg hle] at h
      exact absurd rfl h
  endErr := by
    intro s k _ hs
    simp only [id] at hs
    subst hs
    simp [dataErrReader]

/-! ## Decoding six bytes -/

/-- C1: six bytes from a byte source decode without error into the four
signed fields (a byte from 128 on is read as the byte minus 256) and the two
unsigned fields, and `WeightMinor + WeightMajor * 256` is the little-endian
16-bit value of the last two bytes; nothing is validated. -/
theorem ReadMeasurement_six_bytes (b0 b1 b2 b3 b4 b5 fuel : Nat)
    (h0 : b0 < 256) (h1 : b1 < 256) (h2 : b2 < 256) (h3 : b3 < 256)
    (h4 : b4 < 256) (h5 : b5 < 256) :
    ∃ res, ReadMeasurement bytesReader [b0, b1, b2, b3, b4, b5] (fuel + 1) = some res ∧
      res.err = none ∧
      res.reading.AlwaysThree = (if b0 < 128 then (b0 : Int) else (b0 : Int) - 256) ∧
      res.reading.Stability = (if b1 < 128 then (b1 : Int) else (b1 : Int) - 256) ∧
      res.reading.Mode = (if b2 < 128 then (b2 : Int) else (b2 : Int) - 256) ∧
      res.reading.ScaleFactor = (if b3 < 128 then (b3 : Int) else (b3 : Int) - 256) ∧
      res.reading.WeightMinor = b4 ∧
      res.reading.WeightMajor = b5 ∧
      res.reading.WeightMinor + res.reading.WeightMajor * 256 = LittleEndianUint16 b4 b5 := by
  have hloop : readLoop bytesReader 6 (fuel + 1)
      { src := [b0, b1, b2, b3, b4, b5], buf := List.replicate 6 0, n := 0, err := none,
        calls := [] } =
      { src := [], buf := [b0, b1, b2, b3, b4, b5], n := 6, err := none,
        calls := [{ requested := 6, delivered := 6, err := none }] } := by
    rw [readLoop_succ, if_pos (by simp), readLoop_done _ _ _ _ (by simp [readStep, bytesReader])]
    simp [readStep, bytesReader]
  refine ⟨{ reading := decoder.value { buf := [b0, b1, b2, b3, b4, b5], offset := 0 },
            err := none, src := [],
            calls := [{ requested := 6, delivered := 6, err := none }] }, ?_, rfl, ?_⟩
  · simp only [ReadMeasurement, binaryRead, ReadFull, ReadAtLeast, Measurement.dataSize,
      List.length_replicate]
    rw [hloop]
    simp
  · simp only [decoder.value, decoder.int8, decoder.uint8, List.getD_cons_zero,
      List.getD_cons_succ, Nat.mod_eq_of_lt h4, Nat.mod_eq_of_lt h5]
    refine ⟨?_, ?_, ?_, ?_, trivial, trivial, ?_⟩
    · rw [Nat.mod_eq_of_lt h0]; exact int8_of_lt b0 h0
    · rw [Nat.mod_eq_of_lt h1]; exact int8_of_lt b1 h1
    · rw [Nat.mod_eq_of_lt h2]; exact int8_of_lt b2 h2
    · rw [Nat.mod_eq_of_lt h3]; exact int8_of_lt b3 h3
    · exact (LittleEndianUint16_eq b4 b5 h4 h5).symm

/-! ## Short sources -/

/-- C2: on a source that holds fewer than six bytes and then ends,
`ReadMeasurement` returns, with a non-nil error and a `Measurement` whose six
fields are all zero: nothing of the bytes received shows in it. -/
theorem ReadMeasurement_short_source {σ : Type} (r : Reader σ) (content : σ → List Nat)
    (hs : ByteSource r content) (s : σ) (fuel : Nat)
    (hlen : (content s).length < 6) (hfuel : (content s).length < fuel) :
    ∃ res, ReadMeasurement r s fuel = some res ∧ res.err ≠ none ∧
      res.reading.AlwaysThree = 0 ∧ res.reading.Stability = 0 ∧ res.reading.Mode = 0 ∧
      res.reading.ScaleFactor = 0 ∧ res.reading.WeightMinor = 0 ∧
      res.reading.WeightMajor = 0 ∧
      delivered res.calls = (content s).length := by
  have hl := loop_short r content hs s fuel hlen hfuel
  have hi := LoopInv_loop r 6 fuel _ (LoopInv_start s 6)
  have hn : (readLoop r 6 fuel (startState s 6)).n < 6 := by omega
  cases he : (readLoop r 6 fuel (startState s 6)).err with
  | none => exact absurd he hl.2
  | some e =>
    refine ⟨_, ReadMeasurement_short r s fuel e hn he, by simp, rfl, rfl, rfl, rfl, rfl, rfl, ?_⟩
    show delivered (readLoop r 6 fuel (startState s 6)).calls = _
    rw [hi.sum, hl.1]

/-! ## Errors of the source -/

/-- C3 fails as stated: a source that hands out the sixth byte together with
`io.EOF` has reported an error, yet `ReadMeasurement` returns a nil error and
the decoded `Measurement`. -/
theorem ReadMeasurement_error_with_sixth_byte :
    ∃ res, ReadMeasurement dataErrReader [3, 2, 1, 0, 200, 1] 1 = some res ∧
      (∃ c ∈ res.calls, c.err = some GoError.EOF) ∧ res.err = none ∧
      res.reading = { AlwaysThree := 3, Stability := 2, Mode := 1, ScaleFactor := 0,
                      WeightMinor := 200, WeightMajor := 1 } :=
  ⟨_, rfl, ⟨_, List.mem_singleton_self _, rfl⟩, rfl, by decide⟩

/-- C3, amended: once the source has reported an error in one of its Reads,
`ReadMeasurement` returns after that Read; it returns an error exactly when
fewer than six bytes have arrived by then, the `Measurement` is then zero and
the error is the one the source reported, except that `io.EOF` after at least
one byte becomes `io.ErrUnexpectedEOF`. -/
theorem ReadMeasurement_source_error {σ : Type} (r : Reader σ) (s : σ) (fuel : Nat)
    (h : ∃ c ∈ readTrace r s fuel, c.err ≠ none) :
    ∃ res, ReadMeasurement r s fuel = some res ∧ res.calls = readTrace r s fuel ∧
      (res.err ≠ none ↔ delivered res.calls < 6) ∧
      (delivered res.calls < 6 → res.reading = Measurement.zero ∧
        ∃ c ∈ res.calls, ∃ e, c.err = some e ∧
          res.err = some (if 0 < delivered res.calls ∧ e = GoError.EOF
                          then GoError.ErrUnexpectedEOF else e)) := by
  rw [readTrace_eq] at h ⊢
  have hi := LoopInv_loop r 6 fuel _ (LoopInv_start s 6)
  obtain ⟨c, hc, hce⟩ := h
  have hlast := hi.last c hc hce
  have hle := hi.le
  have hsum := hi.sum
  cases he : (readLoop r 6 fuel (startState s 6)).err with
  | none => rw [he] at hlast; exact absurd hlast hce
  | some e =>
    by_cases hn : (readLoop r 6 fuel (startState s 6)).n < 6
    · refine ⟨_, ReadMeasurement_short r s fuel e hn he, rfl, ?_, ?_⟩
      · simp only [hsum]
        exact ⟨fun _ => hn, fun _ => by simp⟩
      · intro _
        refine ⟨rfl, c, hc, e, ?_, ?_⟩
        · rw [hlast, he]
        · simp only [hsum]
    · have hge : 6 ≤ (readLoop r 6 fuel (startState s 6)).n := by omega
      refine ⟨_, ReadMeasurement_full r s fuel hge, rfl, ?_, ?_⟩
      · simp only [hsum]
        exact ⟨fun hne => absurd rfl hne, fun hlt => absurd hlt hn⟩
      · simp only [hsum]
        intro hlt
        exact absurd hlt hn

/-! ## Consumption -/

/-- C4: on a source that hands out its content front first, a successful
`ReadMeasurement` leaves the source with its first six bytes removed, returns
the decoding of exactly those six bytes, and never asks the source for more
than six bytes; on a source holding at least six bytes the call succeeds, and
on one holding at least twelve a second call decodes bytes 6 to 11. -/
theorem ReadMeasurement_consumes_six {σ : Type} (r : Reader σ) (content : σ → List Nat)
    (hd : Delivers r content) (s : σ) (fuel : Nat) :
    (∀ res, ReadMeasurement r s fuel = some res → res.err = none →
      content res.src = (content s).drop 6 ∧
      res.reading = decoder.value { buf := (content s).take 6, offset := 0 } ∧
      ((content s).take 6).length = 6 ∧
      (∀ c ∈ res.calls, c.requested ≤ 6) ∧ delivered res.calls = 6) ∧
    (ByteSource r content → 6 ≤ (content s).length → 6 ≤ fuel →
      ∃ res, ReadMeasurement r s fuel = some res ∧ res.err = none) ∧
    (ByteSource r content → 12 ≤ (content s).length → 6 ≤ fuel →
      ∃ res1 res2, ReadMeasurement r s fuel = some res1 ∧
        ReadMeasurement r res1.src fuel = some res2 ∧
        res1.err = none ∧ res2.err = none ∧
        res1.reading = decoder.value { buf := (content s).take 6, offset := 0 } ∧
        res2.reading = decoder.value { buf := ((content s).drop 6).take 6, offset := 0 } ∧
        content res2.src = (content s).drop 12) := by
  have first : ∀ (s : σ) (res : Reading σ), ReadMeasurement r s fuel = some res →
      res.err = none →
      content res.src = (content s).drop 6 ∧
      res.reading = decoder.value { buf := (content s).take 6, offset := 0 } ∧
      ((content s).take 6).length = 6 ∧
      (∀ c ∈ res.calls, c.requested ≤ 6) ∧ delivered res.calls = 6 := by
    intro s res hres herr
    obtain ⟨hcalls, hsrc, _, hiff, hread, _⟩ := ReadMeasurement_some r s fuel res hres
    have hi := LoopInv_loop r 6 fuel _ (LoopInv_start s 6)
    have hc := content_loop r content hd 6 (content s) fuel _ (LoopInv_start s 6)
      (by simp [startState]) (by simp [startState])
    have hge := hiff.mp herr
    have hle := hi.le
    have hn : (readLoop r 6 fuel (startState s 6)).n = 6 := by omega
    have hbuf : (readLoop r 6 fuel (startState s 6)).buf = (content s).take 6 := by
      have h1 := hc.1
      rw [hn] at h1
      rw [← h1, List.take_of_length_le (by rw [hi.len])]
    refine ⟨?_, ?_, ?_, ?_, ?_⟩
    · rw [hsrc, hc.2, hn]
    · rw [hread herr, hbuf]
    · rw [← hbuf, hi.len]
    · rw [hcalls]; exact hi.req
    · rw [hcalls, hi.sum, hn]
  have succeeds : ∀ (s : σ), ByteSource r content → 6 ≤ (content s).length → 6 ≤ fuel →
      ∃ res, ReadMeasurement r s fuel = some res ∧ res.err = none := by
    intro s hs hlen hfuel
    have hl := loop_enough r content hs s fuel hlen hfuel
    exact ⟨_, ReadMeasurement_full r s fuel (by rw [hl.1]), rfl⟩
  refine ⟨first s, succeeds s, ?_⟩
  intro hs hlen hfuel
  obtain ⟨res1, h1, e1⟩ := succeeds s hs (by omega) hfuel
  have f1 := first s res1 h1 e1
  have hlen2 : 6 ≤ (content res1.src).length := by
    rw [f1.1, List.length_drop]
    omega
  obtain ⟨res2, h2, e2⟩ := succeeds res1.src hs hlen2 hfuel
  have f2 := first res1.src res2 h2 e2
  refine ⟨res1, res2, h1, h2, e1, e2, f1.2.1, ?_, ?_⟩
  · rw [f2.2.1, f1.1]
  · rw [f2.1, f1.1, List.drop_drop]

/-! ## Instances at concrete inputs -/

theorem ReadMeasurement_six_bytes_witness :
    ∃ res, ReadMeasurement bytesReader [3, 2, 1, 0, 200, 1] 1 = some res ∧
      res.err = none ∧
      res.reading = { AlwaysThree := 3, Stability := 2, Mode := 1, ScaleFactor := 0,
                      WeightMinor := 200, WeightMajor := 1 } ∧
      res.reading.WeightMinor + res.reading.WeightMajor * 256 = 456 := by
  obtain ⟨res, h, he, a0, a1, a2, a3, a4, a5, a6⟩ :=
    ReadMeasurement_six_bytes 3 2 1 0 200 1 0 (by decide) (by decide) (by decide)
      (by decide) (by decide) (by decide)
  refine ⟨res, h, he, ?_, ?_⟩
  · cases hr : res.reading
    rw [hr] at a0 a1 a2 a3 a4 a5
    simp only at a0 a1 a2 a3 a4 a5
    subst a0 a1 a2 a3 a4 a5
    rfl
  · rw [a4, a5]

theorem ReadMeasurement_short_source_witness :
    ByteSource bytesReader id ∧ (id [3, 2, 1]).length < 6 ∧ (id [3, 2, 1]).length < 4 ∧
    ∃ res, ReadMeasurement bytesReader [3, 2, 1] 4 = some res ∧ res.err ≠ none ∧
      res.reading.AlwaysThree = 0 ∧ res.reading.Stability = 0 ∧ res.reading.Mode = 0 ∧
      res.reading.ScaleFactor = 0 ∧ res.reading.WeightMinor = 0 ∧
      res.reading.WeightMajor = 0 ∧
      delivered res.calls = 3 :=
  ⟨bytesReader_source, by decide, by decide,
    ReadMeasurement_short_source bytesReader id bytesReader_source [3, 2, 1] 4
      (by decide) (by decide)⟩

theorem ReadMeasurement_source_error_witness :
    (∃ c ∈ readTrace bytesReader [3, 2, 1] 2, c.err ≠ none) ∧
    ∃ res, ReadMeasurement bytesReader [3, 2, 1] 2 = some res ∧
      res.calls = readTrace bytesReader [3, 2, 1] 2 ∧
      (res.err ≠ none ↔ delivered res.calls < 6) ∧
      (delivered res.calls < 6 → res.reading = Measurement.zero ∧
        ∃ c ∈ res.calls, ∃ e, c.err = some e ∧
          res.err = some (if 0 < delivered res.calls ∧ e = GoError.EOF
                          then GoError.ErrUnexpectedEOF else e)) :=
  ⟨by decide, ReadMeasurement_source_error bytesReader [3, 2, 1] 2 (by decide)⟩

theorem ReadMeasurement_consumes_six_witness :
    Delivers bytesReader id ∧ ByteSource bytesReader id ∧
    ∃ res1 res2,
      ReadMeasurement bytesReader [3, 2, 1, 0, 200, 1, 3, 4, 11, 255, 7, 0] 6 = some res1 ∧
      ReadMeasurement bytesReader res1.src 6 = some res2 ∧
      res1.err = none ∧ res2.err = none ∧
      res1.reading = decoder.value { buf := [3, 2, 1, 0, 200, 1], offset := 0 } ∧
      res2.reading = decoder.value { buf := [3, 4, 11, 255, 7, 0], offset := 0 } ∧
      res2.src = [] :=
  ⟨bytesReader_source.delivers, bytesReader_source,
    (ReadMeasurement_consumes_six bytesReader id bytesReader_source.delivers
      [3, 2, 1, 0, 200, 1, 3, 4, 11, 255, 7, 0] 6).2.2 bytesReader_source
      (by decide) (by decide)⟩

/-! ## Opening a session -/

/-- The calls `closeWithError` makes for context `ctx` and devices `devs`. -/
theorem closeWithError_calls {E : Type} (ctx : Context) (devs : List Device)
    (err : Option GoError) :
    closeWithError ctx devs err =
      ((devs.map Call.DeviceClose ++ [Call.ContextClose ctx], (none, err)) :
        List Call × (Option (Scale E) × Option GoError)) := rfl

theorem NewScale_enumeration_error {E : Type} (usb : Usb E) (devs : List Device)
    (e : GoError) (hlist : usb.ListDevices usb.NewContext vendorFilter = (devs, some e)) :
    NewScale usb =
      { trace := [Call.NewContext, Call.ListDevices usb.NewContext] ++
          (devs.map Call.DeviceClose ++ [Call.ContextClose usb.NewContext])
        result := some (none, some e) } := by
  simp only [NewScale, hlist, closeWithError]

theorem NewScale_count {E : Type} (usb : Usb E) (devs : List Device)
    (hlist : usb.ListDevices usb.NewContext vendorFilter = (devs, none))
    (hn : devs.length ≠ 1) :
    NewScale usb =
      { trace := [Call.NewContext, Call.ListDevices usb.NewContext] ++
          (devs.map Call.DeviceClose ++ [Call.ContextClose usb.NewContext])
        result := some (none, some (GoError.errorf
          ("expected 1 device, found " ++ toString devs.length))) } := by
  simp only [NewScale, hlist, closeWithError]
  rw [if_pos hn]

theorem NewScale_index {E : Type} (usb : Usb E) (dev : Device)
    (hlist : usb.ListDevices usb.NewContext vendorFilter = ([dev], none))
    (ha : endpointArgs dev = none) :
    NewScale usb =
      { trace := [Call.NewContext, Call.ListDevices usb.NewContext], result := none } := by
  simp only [NewScale, hlist, closeWithError]
  simp [ha]

theorem NewScale_open_error {E : Type} (usb : Usb E) (dev : Device)
    (a : Nat × Nat × Nat × Nat) (e : GoError)
    (hlist : usb.ListDevices usb.NewContext vendorFilter = ([dev], none))
    (ha : endpointArgs dev = some a)
    (ho : (usb.OpenEndpoint dev a.1 a.2.1 a.2.2.1 a.2.2.2).2 = some e) :
    NewScale usb =
      { trace := [Call.NewContext, Call.ListDevices usb.NewContext,
          Call.OpenEndpoint dev a.1 a.2.1 a.2.2.1 a.2.2.2] ++
          ([dev].map Call.DeviceClose ++ [Call.ContextClose usb.NewContext])
        result := some (none, some e) } := by
  simp only [NewScale, hlist, closeWithError]
  simp [ha, ho]

theorem NewScale_opened {E : Type} (usb : Usb E) (dev : Device)
    (a : Nat × Nat × Nat × Nat)
    (hlist : usb.ListDevices usb.NewContext vendorFilter = ([dev], none))
    (ha : endpointArgs dev = some a)
    (ho : (usb.OpenEndpoint dev a.1 a.2.1 a.2.2.1 a.2.2.2).2 = none) :
    NewScale usb =
      { trace := [Call.NewContext, Call.ListDevices usb.NewContext,
          Call.OpenEndpoint dev a.1 a.2.1 a.2.2.1 a.2.2.2]
        result := some (some { context := usb.NewContext, device := dev,
                               endpoint := (usb.OpenEndpoint dev a.1 a.2.1 a.2.2.1 a.2.2.2).1 },
                        none) } := by
  simp only [NewScale, hlist, closeWithError]
  simp [ha, ho]

theorem length_one_cases (devs : List Device) (h : devs.length = 1) :
    ∃ dev, devs = [dev] := by
  match devs, h with
  | [dev], _ => exact ⟨dev, rfl⟩

/-- C5: after a successful enumeration of `n` devices with `n ≠ 1`,
`NewScale` returns no session and the error `expected 1 device, found n`
(`found 0`, `found 2`), and opens no endpoint; with one device every error it
returns is the one `OpenEndpoint` reported. The filter accepts a descriptor
exactly when its vendor is `0x0922`. -/
theorem NewScale_cardinality {E : Type} (usb : Usb E) (devs : List Device)
    (hlist : usb.ListDevices usb.NewContext vendorFilter = (devs, none)) :
    (∀ desc : Descriptor, vendorFilter desc = true ↔ desc.Vendor = 0x0922) ∧
    (devs.length ≠ 1 →
      (NewScale usb).result = some (none, some (GoError.errorf
        ("expected 1 device, found " ++ toString devs.length))) ∧
      (∀ dev a b c d, Call.OpenEndpoint dev a b c d ∉ (NewScale usb).trace)) ∧
    (devs.length = 0 →
      (NewScale usb).result = some (none, some (GoError.errorf "expected 1 device, found 0"))) ∧
    (devs.length = 2 →
      (NewScale usb).result = some (none, some (GoError.errorf "expected 1 device, found 2"))) ∧
    (devs.length = 1 → ∀ scale err, (NewScale usb).result = some (scale, some err) →
      ∃ dev a, devs = [dev] ∧ endpointArgs dev = some a ∧
        (usb.OpenEndpoint dev a.1 a.2.1 a.2.2.1 a.2.2.2).2 = some err) := by
  refine ⟨?_, ?_, ?_, ?_, ?_⟩
  · intro desc
    unfold vendorFilter VendorID
    by_cases h : desc.Vendor = 0x0922
    · simp [h]
    · simp [h]
  · intro hn
    rw [NewScale_count usb devs hlist hn]
    refine ⟨rfl, ?_⟩
    intro dev a b c d hmem
    simp at hmem
  · intro h0
    rw [NewScale_count usb devs hlist (by omega), h0]
    rfl
  · intro h2
    rw [NewScale_count usb devs hlist (by omega), h2]
    rfl
  · intro h1 scale err hres
    obtain ⟨dev, hdev⟩ := length_one_cases devs h1
    subst hdev
    cases ha : endpointArgs dev with
    | none =>
      rw [NewScale_index usb dev hlist ha] at hres
      simp at hres
    | some a =>
      cases ho : (usb.OpenEndpoint dev a.1 a.2.1 a.2.2.1 a.2.2.2).2 with
      | none =>
        rw [NewScale_opened usb dev a hlist ha ho] at hres
        simp at hres
      | some e =>
        rw [NewScale_open_error usb dev a e hlist ha ho] at hres
        simp only [Option.some.injEq, Prod.mk.injEq] at hres
        exact ⟨dev, a, rfl, ha, by rw [ho, hres.2]⟩

theorem NewScale_cardinality_witness :
    (busUsb [scaleDevice 1, scaleDevice 2] none none).ListDevices
        (busUsb [scaleDevice 1, scaleDevice 2] none none).NewContext vendorFilter =
      ([scaleDevice 1, scaleDevice 2], none) ∧
    (NewScale (busUsb [scaleDevice 1, scaleDevice 2] none none)).result =
      some (none, some (GoError.errorf "expected 1 device, found 2")) :=
  ⟨by decide,
    (NewScale_cardinality (busUsb [scaleDevice 1, scaleDevice 2] none none)
      [scaleDevice 1, scaleDevice 2] (by decide)).2.2.2.1 (by decide)⟩

/-! ## Cleanup on failure -/

theorem count_deviceClose (ctx : Context) (devs : List Device) (d : Device) :
    (devs.map Call.DeviceClose ++ [Call.ContextClose ctx]).count (Call.DeviceClose d) =
      devs.count d := by
  rw [List.count_append, List.count_map_of_injective devs Call.DeviceClose
    (fun x y h => by injection h)]
  simp [List.count_singleton]

theorem count_contextClose (ctx : Context) (devs : List Device) :
    (devs.map Call.DeviceClose ++ [Call.ContextClose ctx]).count (Call.ContextClose ctx) =
      1 := by
  rw [List.count_append]
  have h : (devs.map Call.DeviceClose).count (Call.ContextClose ctx) = 0 := by
    rw [List.count_eq_zero]
    intro hmem
    simp at hmem
  rw [h]
  simp

/-- C6: whenever `NewScale` returns an error (the enumeration failed, the
number of devices is not one, or the endpoint could not be opened), the
session returned is nil, the error is the original one, and the run ends with
one close call per device handle of the enumeration followed by one close
call on the context, with no close call before them; the results of the close
calls have no influence on the run. -/
theorem NewScale_failure_cleanup {E : Type} (usb : Usb E) (devs : List Device)
    (lerr : Option GoError)
    (hlist : usb.ListDevices usb.NewContext vendorFilter = (devs, lerr)) :
    (∀ scale err, (NewScale usb).result = some (scale, some err) →
      scale = none ∧
      (∃ pre, (NewScale usb).trace =
          pre ++ (devs.map Call.DeviceClose ++ [Call.ContextClose usb.NewContext]) ∧
          ∀ c ∈ pre, notClose c) ∧
      (∀ d, (NewScale usb).trace.count (Call.DeviceClose d) = devs.count d) ∧
      (NewScale usb).trace.count (Call.ContextClose usb.NewContext) = 1 ∧
      (lerr = some err ∨
        (lerr = none ∧ devs.length ≠ 1 ∧
          err = GoError.errorf ("expected 1 device, found " ++ toString devs.length)) ∨
        (lerr = none ∧ ∃ dev a, devs = [dev] ∧ endpointArgs dev = some a ∧
          (usb.OpenEndpoint dev a.1 a.2.1 a.2.2.1 a.2.2.2).2 = some err))) ∧
    (∀ e, lerr = some e → (NewScale usb).result = some (none, some e)) ∧
    (lerr = none → devs.length ≠ 1 →
      (NewScale usb).result = some (none, some (GoError.errorf
        ("expected 1 device, found " ++ toString devs.length)))) ∧
    (∀ dev a e, lerr = none → devs = [dev] → endpointArgs dev = some a →
      (usb.OpenEndpoint dev a.1 a.2.1 a.2.2.1 a.2.2.2).2 = some e →
      (NewScale usb).result = some (none, some e)) ∧
    (∀ (f : Device → Option GoError) (g : Context → Option GoError),
      NewScale { usb with DeviceClose := f, ContextClose := g } = NewScale usb) := by
  refine ⟨?_, ?_, ?_, ?_, ?_⟩
  · intro scale err hres
    cases lerr with
    | some e =>
      rw [NewScale_enumeration_error usb devs e hlist] at hres ⊢
      simp only [Option.some.injEq, Prod.mk.injEq] at hres
      refine ⟨hres.1.symm, ⟨_, rfl, ?_⟩, ?_, ?_, Or.inl (by rw [hres.2])⟩
      · intro c hc
        simp only [List.mem_cons, List.mem_singleton, List.not_mem_nil, or_false] at hc
        rcases hc with hc | hc <;> subst hc <;> exact ⟨fun _ h => (by cases h), fun _ h => (by cases h)⟩
      · intro d
        rw [List.count_append, count_deviceClose]
        simp [List.count_cons]
      · rw [List.count_append, count_contextClose]
        simp [List.count_cons]
    | none =>
      by_cases hn : devs.length = 1
      · obtain ⟨dev, hdev⟩ := length_one_cases devs hn
        subst hdev
        cases ha : endpointArgs dev with
        | none =>
          rw [NewScale_index usb dev hlist ha] at hres
          simp at hres
        | some a =>
          cases ho : (usb.OpenEndpoint dev a.1 a.2.1 a.2.2.1 a.2.2.2).2 with
          | none =>
            rw [NewScale_opened usb dev a hlist ha ho] at hres
            simp at hres
          | some e =>
            rw [NewScale_open_error usb dev a e hlist ha ho] at hres ⊢
            simp only [Option.some.injEq, Prod.mk.injEq] at hres
            refine ⟨hres.1.symm, ⟨_, rfl, ?_⟩, ?_, ?_,
              Or.inr (Or.inr ⟨rfl, dev, a, rfl, ha, by rw [ho, hres.2]⟩)⟩
            · intro c hc
              simp only [List.mem_cons, List.mem_singleton, List.not_mem_nil, or_false] at hc
              rcases hc with hc | hc | hc <;> subst hc <;>
                exact ⟨fun _ h => (by cases h), fun _ h => (by cases h)⟩
            · intro d
              rw [List.count_append, count_deviceClose]
              simp [List.count_cons]
            · rw [List.count_append, count_contextClose]
              simp [List.count_cons]
      · rw [NewScale_count usb devs hlist hn] at hres ⊢
        simp only [Option.some.injEq, Prod.mk.injEq] at hres
        refine ⟨hres.1.symm, ⟨_, rfl, ?_⟩, ?_, ?_, Or.inr (Or.inl ⟨rfl, hn, hres.2.symm⟩)⟩
        · intro c hc
          simp only [List.mem_cons, List.mem_singleton, List.not_mem_nil, or_false] at hc
          rcases hc with hc | hc <;> subst hc <;>
            exact ⟨fun _ h => (by cases h), fun _ h => (by cases h)⟩
        · intro d
          rw [List.count_append, count_deviceClose]
          simp [List.count_cons]
        · rw [List.count_append, count_contextClose]
          simp [List.count_cons]
  · intro e he
    subst he
    rw [NewScale_enumeration_error usb devs e hlist]
  · intro he hn
    subst he
    rw [NewScale_count usb devs hlist hn]
  · intro dev a e he hdev ha ho
    subst he hdev
    rw [NewScale_open_error usb dev a e hlist ha ho]
  · intro f g
    rfl

theorem NewScale_failure_cleanup_witness :
    (busUsb [scaleDevice 1, bareDevice 7, scaleDevice 2] none (some (GoError.lib 5))).ListDevices
        (busUsb [scaleDevice 1, bareDevice 7, scaleDevice 2] none
          (some (GoError.lib 5))).NewContext vendorFilter =
      ([scaleDevice 1, bareDevice 7, scaleDevice 2], none) ∧
    (NewScale (busUsb [scaleDevice 1, bareDevice 7, scaleDevice 2] none
        (some (GoError.lib 5)))).result =
      some (none, some (GoError.errorf "expected 1 device, found 3")) ∧
    (NewScale (busUsb [scaleDevice 1, bareDevice 7, scaleDevice 2] none
        (some (GoError.lib 5)))).trace =
      [Call.NewContext, Call.ListDevices { id := 0 }, Call.DeviceClose (scaleDevice 1),
       Call.DeviceClose (bareDevice 7), Call.DeviceClose (scaleDevice 2),
       Call.ContextClose { id := 0 }] :=
  ⟨by decide,
    (NewScale_failure_cleanup
      (busUsb [scaleDevice 1, bareDevice 7, scaleDevice 2] none (some (GoError.lib 5)))
      [scaleDevice 1, bareDevice 7, scaleDevice 2] none (by decide)).2.2.1 rfl (by decide),
    by decide⟩

/-! ## Closing a session -/

/-- C7: `Scale.Close` calls the device close and then the context close, each
once, whatever the first one answers; it returns the device error when there
is one and the answer of the context close otherwise. -/
theorem Scale_Close_both {E : Type} (usb : Usb E) (s : Scale E) :
    (Scale.Close usb s).1 = [Call.DeviceClose s.device, Call.ContextClose s.context] ∧
    (∀ errDev, usb.DeviceClose s.device = some errDev →
      (Scale.Close usb s).2 = some errDev) ∧
    (usb.DeviceClose s.device = none →
      (Scale.Close usb s).2 = usb.ContextClose s.context) ∧
    (usb.DeviceClose s.device = none → usb.ContextClose s.context = none →
      (Scale.Close usb s).2 = none) := by
  refine ⟨rfl, ?_, ?_, ?_⟩
  · intro errDev h
    simp only [Scale.Close, h]
  · intro h
    simp only [Scale.Close, h]
  · intro h1 h2
    simp only [Scale.Close, h1, h2]

theorem Scale_Close_both_witness :
    (Scale.Close (busUsb [] none (some (GoError.lib 5)))
        ({ context := { id := 0 }, device := scaleDevice 1, endpoint := 130 } : Scale Nat)).1 =
      [Call.DeviceClose (scaleDevice 1), Call.ContextClose { id := 0 }] ∧
    (Scale.Close (busUsb [] none (some (GoError.lib 5)))
        ({ context := { id := 0 }, device := scaleDevice 1, endpoint := 130 } : Scale Nat)).2 =
      some (GoError.lib 5) :=
  ⟨(Scale_Close_both (busUsb [] none (some (GoError.lib 5)))
      { context := { id := 0 }, device := scaleDevice 1, endpoint := 130 }).1,
    (Scale_Close_both (busUsb [] none (some (GoError.lib 5)))
      { context := { id := 0 }, device := scaleDevice 1, endpoint := 130 }).2.1
      (GoError.lib 5) rfl⟩

/-! ## Raw reads -/

/-- C8: `Scale.ReadRaw` issues one Read for `MaxPacketSize` bytes and returns
a buffer of `MaxPacketSize` bytes that starts with the bytes read and is zero
after them, together with the error of that Read unchanged. -/
theorem Scale_ReadRaw_once {σ : Type} (s : Scale (Endpoint σ)) :
    (Scale.ReadRaw s).calls =
      [{ requested := s.endpoint.Info.MaxPacketSize
         delivered := ((s.endpoint.reader.Read s.endpoint.state
           s.endpoint.Info.MaxPacketSize).data.take s.endpoint.Info.MaxPacketSize).length
         err := (s.endpoint.reader.Read s.endpoint.state
           s.endpoint.Info.MaxPacketSize).err }] ∧
    (Scale.ReadRaw s).buf.length = s.endpoint.Info.MaxPacketSize ∧
    (Scale.ReadRaw s).buf =
      (s.endpoint.reader.Read s.endpoint.state
          s.endpoint.Info.MaxPacketSize).data.take s.endpoint.Info.MaxPacketSize ++
        List.replicate (s.endpoint.Info.MaxPacketSize -
          ((s.endpoint.reader.Read s.endpoint.state
            s.endpoint.Info.MaxPacketSize).data.take s.endpoint.Info.MaxPacketSize).length) 0 ∧
    (Scale.ReadRaw s).err =
      (s.endpoint.reader.Read s.endpoint.state s.endpoint.Info.MaxPacketSize).err ∧
    (Scale.ReadRaw s).src =
      (s.endpoint.reader.Read s.endpoint.state s.endpoint.Info.MaxPacketSize).next := by
  refine ⟨?_, ?_, ?_, ?_, ?_⟩
  · simp [Scale.ReadRaw]
  · simp only [Scale.ReadRaw, List.length_append, List.length_take, List.length_drop,
      List.length_replicate]
    omega
  · simp [Scale.ReadRaw]
  · simp [Scale.ReadRaw]
  · simp [Scale.ReadRaw]

/-! ## The index chain -/

/-- C10: after an enumeration that returned exactly one device, `NewScale`
runs into no index out of range exactly when the device has a first
configuration, that configuration a first interface, that interface a first
setup and that setup a first endpoint; otherwise, as with an empty
configuration list, the run stops at the index expression: no endpoint is
opened, nothing is closed and nothing is returned. -/
theorem NewScale_index_chain {E : Type} (usb : Usb E) (dev : Device)
    (hlist : usb.ListDevices usb.NewContext vendorFilter = ([dev], none)) :
    ((NewScale usb).result ≠ none ↔
      ∃ c cs i is su sus e es, dev.desc.Configs = c :: cs ∧ c.Interfaces = i :: is ∧
        i.Setups = su :: sus ∧ su.Endpoints = e :: es) ∧
    ((NewScale usb).result = none →
      (NewScale usb).trace = [Call.NewContext, Call.ListDevices usb.NewContext]) ∧
    (dev.desc.Configs = [] → (NewScale usb).result = none) := by
  have hargs : (∃ a, endpointArgs dev = some a) ↔
      ∃ c cs i is su sus e es, dev.desc.Configs = c :: cs ∧ c.Interfaces = i :: is ∧
        i.Setups = su :: sus ∧ su.Endpoints = e :: es := by
    unfold endpointArgs
    constructor
    · rintro ⟨a, ha⟩
      cases hc : dev.desc.Configs with
      | nil => simp [hc] at ha
      | cons c cs =>
        cases hi : c.Interfaces with
        | nil => simp [hc, hi] at ha
        | cons i is =>
          cases hsu : i.Setups with
          | nil => simp [hc, hi, hsu] at ha
          | cons su sus =>
            cases he : su.Endpoints with
            | nil => simp [hc, hi, hsu, he] at ha
            | cons e es => exact ⟨c, cs, i, is, su, sus, e, es, rfl, hi, hsu, he⟩
    · rintro ⟨c, cs, i, is, su, sus, e, es, hc, hi, hsu, he⟩
      exact ⟨(c.Config, i.Number, su.Number, e.Address), by simp [hc, hi, hsu, he]⟩
  have hres : (NewScale usb).result ≠ none ↔ ∃ a, endpointArgs dev = some a := by
    cases ha : endpointArgs dev with
    | none =>
      rw [NewScale_index usb dev hlist ha]
      simp
    | some a =>
      cases ho : (usb.OpenEndpoint dev a.1 a.2.1 a.2.2.1 a.2.2.2).2 with
      | none =>
        rw [NewScale_opened usb dev a hlist ha ho]
        simp
      | some e =>
        rw [NewScale_open_error usb dev a e hlist ha ho]
        simp
  refine ⟨hres.trans hargs, ?_, ?_⟩
  · intro hnone
    cases ha : endpointArgs dev with
    | none => rw [NewScale_index usb dev hlist ha]
    | some a => exact absurd hnone (hres.mpr ⟨a, ha⟩)
  · intro hc
    have ha : endpointArgs dev = none := by
      unfold endpointArgs
      simp [hc]
    rw [NewScale_index usb dev hlist ha]

theorem NewScale_index_chain_witness :
    (busUsb [bareDevice 1] none none).ListDevices
        (busUsb [bareDevice 1] none none).NewContext vendorFilter = ([bareDevice 1], none) ∧
    (NewScale (busUsb [bareDevice 1] none none)).result = none ∧
    (NewScale (busUsb [bareDevice 1] none none)).trace =
      [Call.NewContext, Call.ListDevices { id := 0 }] :=
  ⟨by decide,
    (NewScale_index_chain (busUsb [bareDevice 1] none none) (bareDevice 1) (by decide)).2.2 rfl,
    by decide⟩

/-! ## Measurement reads on a session -/

theorem readStep_calls {σ : Type} (r : Reader σ) (st : ReadState σ) :
    ∃ c, (readStep r st).calls = st.calls ++ [c] ∧ c.requested = st.buf.length - st.n :=
  ⟨_, rfl, rfl⟩

theorem readLoop_calls_extend {σ : Type} (r : Reader σ) (L : Nat) :
    ∀ (fuel : Nat) (st : ReadState σ),
      ∃ more, (readLoop r L fuel st).calls = st.calls ++ more := by
  intro fuel
  induction fuel with
  | zero => intro st; exact ⟨[], by simp [readLoop]⟩
  | succ k ih =>
    intro st
    rw [readLoop_succ]
    split
    · obtain ⟨more, hm⟩ := ih (readStep r st)
      obtain ⟨c, hc, _⟩ := readStep_calls r st
      refine ⟨c :: more, ?_⟩
      rw [hm, hc]
      simp
    · exact ⟨[], by simp⟩

theorem readStep_start {σ : Type} (r : Reader σ) (st : σ) :
    readStep r (startState st 6) =
      { src := (r.Read st 6).next
        buf := (r.Read st 6).data.take 6 ++
          List.replicate (6 - ((r.Read st 6).data.take 6).length) 0
        n := ((r.Read st 6).data.take 6).length
        err := (r.Read st 6).err
        calls := [{ requested := 6, delivered := ((r.Read st 6).data.take 6).length,
                    err := (r.Read st 6).err }] } := by
  simp only [readStep, startState, List.length_replicate, List.take_zero, List.nil_append,
    Nat.sub_zero, Nat.zero_add, List.drop_replicate]

theorem readLoop_start_succ {σ : Type} (r : Reader σ) (st : σ) (fuel : Nat) :
    readLoop r 6 (fuel + 1) (startState st 6) =
      readLoop r 6 fuel (readStep r (startState st 6)) := by
  rw [readLoop_succ, if_pos]
  simp [startState]

/-- C9 fails as stated: on an endpoint that answers three bytes per Read
without an error, the first Read returns fewer than six bytes, yet
`Scale.ReadMeasurement` returns no error: it has not returned after one Read,
issues a second Read for the three missing bytes and decodes the six bytes
of both. -/
theorem Scale_ReadMeasurement_accumulates :
    Scale.ReadMeasurement (sessionOf (chunkReader 3) [3, 2, 1, 0, 200, 1] 8) 1 = none ∧
    ∃ res, Scale.ReadMeasurement (sessionOf (chunkReader 3) [3, 2, 1, 0, 200, 1] 8) 2 =
        some res ∧
      res.calls = [{ requested := 6, delivered := 3, err := none },
                   { requested := 3, delivered := 3, err := none }] ∧
      res.err = none ∧
      res.reading = { AlwaysThree := 3, Stability := 2, Mode := 1, ScaleFactor := 0,
                      WeightMinor := 200, WeightMajor := 1 } :=
  ⟨rfl, _, rfl, by decide, rfl, by decide⟩

/-- C9, amended: `Scale.ReadMeasurement` is `ReadMeasurement` on the endpoint.
Its first Read asks for six bytes. When that Read answers six bytes the call
returns after this one Read with what `ReadMeasurement` decodes from those six
bytes; when it answers fewer than six bytes and an error the call returns
after this one Read with an error; when it answers fewer than six bytes and no
error the call does not return yet and issues a further Read for the missing
bytes. -/
theorem Scale_ReadMeasurement_reads {σ : Type} (s : Scale (Endpoint σ)) (fuel : Nat) :
    (((s.endpoint.reader.Read s.endpoint.state 6).data.take 6).length = 6 →
      Scale.ReadMeasurement s (fuel + 1) =
        some { reading := decoder.value
                 { buf := (s.endpoint.reader.Read s.endpoint.state 6).data.take 6
                   offset := 0 }
               err := none
               src := (s.endpoint.reader.Read s.endpoint.state 6).next
               calls := [{ requested := 6, delivered := 6
                           err := (s.endpoint.reader.Read s.endpoint.state 6).err }] } ∧
      ∃ res, ReadMeasurement bytesReader
          ((s.endpoint.reader.Read s.endpoint.state 6).data.take 6) 6 = some res ∧
        res.err = none ∧
        res.reading = decoder.value
          { buf := (s.endpoint.reader.Read s.endpoint.state 6).data.take 6, offset := 0 }) ∧
    (∀ e, ((s.endpoint.reader.Read s.endpoint.state 6).data.take 6).length < 6 →
      (s.endpoint.reader.Read s.endpoint.state 6).err = some e →
      Scale.ReadMeasurement s (fuel + 1) =
        some { reading := Measurement.zero
               err := some (if 0 < ((s.endpoint.reader.Read s.endpoint.state 6).data.take
                                 6).length ∧ e = GoError.EOF
                            then GoError.ErrUnexpectedEOF else e)
               src := (s.endpoint.reader.Read s.endpoint.state 6).next
               calls := [{ requested := 6
                           delivered := ((s.endpoint.reader.Read s.endpoint.state 6).data.take
                             6).length
                           err := some e }] }) ∧
    (((s.endpoint.reader.Read s.endpoint.state 6).data.take 6).length < 6 →
      (s.endpoint.reader.Read s.endpoint.state 6).err = none →
      Scale.ReadMeasurement s 1 = none ∧
      ∀ res, Scale.ReadMeasurement s fuel = some res →
        ∃ c2 more, res.calls =
            { requested := 6
              delivered := ((s.endpoint.reader.Read s.endpoint.state 6).data.take 6).length
              err := none } :: c2 :: more ∧
          c2.requested =
            6 - ((s.endpoint.reader.Read s.endpoint.state 6).data.take 6).length) := by
  obtain ⟨ctx, dev, ep⟩ := s
  obtain ⟨info, r, st⟩ := ep
  simp only [Scale.ReadMeasurement]
  have hstep := readStep_start r st
  refine ⟨?_, ?_, ?_⟩
  · intro h6
    have hloop : readLoop r 6 (fuel + 1) (startState st 6) = readStep r (startState st 6) := by
      rw [readLoop_start_succ, readLoop_done]
      rw [hstep]
      simp only
      omega
    constructor
    · rw [ReadMeasurement_full r st (fuel + 1) (by rw [hloop, hstep]; simp only; omega)]
      rw [hloop, hstep]
      simp [h6]
    · have hl := loop_enough bytesReader id bytesReader_source ((r.Read st 6).data.take 6) 6
        (by simp only [id]; omega) (Nat.le_refl 6)
      refine ⟨_, ReadMeasurement_full bytesReader _ 6 (by rw [hl.1]), rfl, ?_⟩
      simp only
      rw [hl.2.1]
      simp only [id]
      rw [List.take_of_length_le (Nat.le_of_eq h6)]
  · intro e hlt he
    have hloop : readLoop r 6 (fuel + 1) (startState st 6) = readStep r (startState st 6) := by
      rw [readLoop_start_succ, readLoop_done]
      rw [hstep]
      simp [he]
    rw [ReadMeasurement_short r st (fuel + 1) e (by rw [hloop, hstep]; exact hlt)
      (by rw [hloop, hstep]; exact he)]
    rw [hloop, hstep]
    simp [he]
  · intro hlt he
    have hcond : (readStep r (startState st 6)).n < 6 ∧
        (readStep r (startState st 6)).err = none := by
      rw [hstep]
      exact ⟨hlt, he⟩
    constructor
    · apply ReadMeasurement_running r st 1
      · rw [readLoop_start_succ, readLoop_zero]; exact hcond.1
      · rw [readLoop_start_succ, readLoop_zero]; exact hcond.2
    · intro res hres
      obtain ⟨hcalls, _, hrun, _⟩ := ReadMeasurement_some r st fuel res hres
      match fuel, hcalls, hrun with
      | 0, _, hrun =>
        exact absurd ⟨by simp [readLoop, startState], by simp [readLoop, startState]⟩ hrun
      | 1, _, hrun =>
        rw [readLoop_start_succ, readLoop_zero] at hrun
        exact absurd hcond hrun
      | k + 2, hcalls, _ =>
        rw [readLoop_start_succ, readLoop_succ, if_pos hcond] at hcalls
        obtain ⟨more, hm⟩ :=
          readLoop_calls_extend r 6 k (readStep r (readStep r (startState st 6)))
        obtain ⟨c2, hc2, hreq⟩ := readStep_calls r (readStep r (startState st 6))
        rw [hm, hc2, hstep] at hcalls
        rw [hstep] at hreq
        refine ⟨c2, more, ?_, ?_⟩
        · rw [hcalls, he]
          rfl
        · rw [hreq]
          simp only [List.length_append, List.length_replicate, List.length_take]
          omega

theorem Scale_ReadMeasurement_reads_witness :
    Scale.ReadMeasurement (sessionOf dataErrReader [3, 2, 1] 8) 1 =
      some { reading := Measurement.zero
             err := some GoError.ErrUnexpectedEOF
             src := []
             calls := [{ requested := 6, delivered := 3, err := some GoError.EOF }] } :=
  (Scale_ReadMeasurement_reads (sessionOf dataErrReader [3, 2, 1] 8) 0).2.1 GoError.EOF
    (by decide) rfl

end Dymoscale
